import Mathlib

/-!
# Error tracing: the tree design (package terr) and the span-list design (package errtx)

A shallow embedding of `terr.go` and `errtx.go`.

* A Go `string` is an immutable byte sequence; `len` and slicing count bytes.
  It is embedded as the list of its bytes, each byte written as a `Char`, so
  that ASCII text reads as itself.
* A Go `error` that may be nil is an `Option`; `none` is nil.
* A call that can panic returns an `Outcome`.
* The call stack is explicit: every public function receives the list of call
  sites that lead to it, innermost first, and pushes its own call sites.
* Pointer identity is explicit: a function that allocates receives the fresh
  identity `fresh` picked by the allocator.
* A slice is embedded as the list of its elements (length and contents at the
  time the function returns); the section on backing arrays embeds package
  errtx once more with slice headers over a memory of backing arrays.
-/

/-- A Go string: its bytes in order. -/
abbrev GoString := List Char

/-- Run-time panics raised by the embedded code. -/
inductive Panic where
  | sliceBoundsOutOfRange
  | nilDereference
  deriving DecidableEq, Repr

/-- Result of a Go call that either returns a value or panics. -/
inductive Outcome (α : Type) where
  | returns (a : α)
  | panics (why : Panic)
  deriving DecidableEq, Repr

/-- One entry of the call stack: the file and line of a call site. -/
structure Frame where
  file : GoString
  line : Nat
  deriving DecidableEq, Repr

/-- The function `runtime.Caller(skip)` seen from a stack whose entry 0 is the
call site of `runtime.Caller` itself: it reports file, line and ok of entry
`skip`, and the zero values with ok = false when there is no such entry. -/
def runtimeCaller (stack : List Frame) (skip : Nat) : GoString × Nat × Bool :=
  match stack.get? skip with
  | some f => (f.file, f.line, true)
  | none => ([], 0, false)

/-- Decimal text of a non-negative int, as the verb `%d` prints it. -/
def itoa (n : Nat) : GoString := Nat.toDigits 10 n

/-- Decimal text of an int, as the verb `%d` prints it. -/
def itoaInt : Int → GoString
  | .ofNat m => itoa m
  | .negSucc m => '-' :: itoa (m + 1)

/-- The slice expression `s[lo:]` on a string: it panics when `lo > len(s)`. -/
def sliceFrom (s : GoString) (lo : Nat) : Outcome GoString :=
  if lo ≤ s.length then .returns (s.drop lo) else .panics .sliceBoundsOutOfRange

/-- The function `strings.Repeat("\t", count)`. -/
def stringsRepeatTab (count : Nat) : GoString := List.replicate count '\t'

/-- A value of type `any` passed as a formatting operand: a string, an int, or
a non-nil error of the universe `E`. -/
inductive GoAny (E : Type) where
  | str (s : GoString)
  | int (n : Int)
  | err (e : E)

section Fmt

variable {E : Type} (msgOf typeOf : E → GoString)

/-- The text `type=value` that package fmt prints for an operand in its
diagnostics. -/
def fmtTypeValue : GoAny E → GoString
  | .str s => "string=".toList ++ s
  | .int n => "int=".toList ++ itoaInt n
  | .err e => typeOf e ++ "=".toList ++ msgOf e

/-- Text printed by `fmt.Errorf` for one operand under one verb.  The verbs
`%v %s` print a string as itself, `%v %d` print an int in decimal, and
`%v %s %w` print an error as its message (for a traced error through its
`Format` method, which forwards the verb to the wrapped error).  Every other
pairing is rendered as the bad-verb diagnostic `%!verb(type=value)`; package
fmt prints exactly this for the pairings of `%d %w` with a string and of
`%s %w` with an int.  The remaining pairings lie outside the modelled
fragment, where package fmt prints something else: any other verb on an error
operand, in particular the verb `%@` of package terr, which prints the tree,
and the flagged verb `%+v` of package errtx, which prints the trace. -/
def fmtArg (verb : Char) : GoAny E → GoString
  | .str s =>
    if verb = 'v' ∨ verb = 's' then s
    else "%!".toList ++ [verb] ++ "(".toList ++ fmtTypeValue msgOf typeOf (.str s) ++ ")".toList
  | .int n =>
    if verb = 'v' ∨ verb = 'd' then itoaInt n
    else "%!".toList ++ [verb] ++ "(".toList ++ fmtTypeValue msgOf typeOf (.int n) ++ ")".toList
  | .err e =>
    if verb = 'v' ∨ verb = 's' ∨ verb = 'w' then msgOf e
    else "%!".toList ++ [verb] ++ "(".toList ++ fmtTypeValue msgOf typeOf (.err e) ++ ")".toList

/-- The comma separated operand list of the `%!(EXTRA ...)` diagnostic. -/
def fmtExtra : List (GoAny E) → GoString
  | [] => []
  | [x] => fmtTypeValue msgOf typeOf x
  | x :: y :: rest =>
    fmtTypeValue msgOf typeOf x ++ ", ".toList ++ fmtExtra (y :: rest)

/-- The message built by `fmt.Errorf(format, a...)`, for formats made of
literal text, `%%` and one-letter verbs without flags, width or explicit
operand indexes.  Literal text is copied, each verb consumes the next operand,
a verb without operand prints `%!verb(MISSING)`, a lone trailing `%` prints
`%!(NOVERB)` and left-over operands print `%!(EXTRA ...)`. -/
def fmtSprintf : GoString → List (GoAny E) → GoString
  | [], [] => []
  | [], x :: rest => "%!(EXTRA ".toList ++ fmtExtra msgOf typeOf (x :: rest) ++ ")".toList
  | [c], a =>
    if c = '%' then "%!(NOVERB)".toList ++ fmtSprintf [] a
    else c :: fmtSprintf [] a
  | c :: verb :: fs, a =>
    if c = '%' then
      if verb = '%' then '%' :: fmtSprintf fs a
      else
        match a with
        | [] => "%!".toList ++ [verb] ++ "(MISSING)".toList ++ fmtSprintf fs []
        | x :: rest => fmtArg msgOf typeOf verb x ++ fmtSprintf fs rest
    else c :: fmtSprintf (verb :: fs) a

/-- The operands that `fmt.Errorf(format, a...)` wraps: the error operands
consumed by a `%w` verb, in order.  A `%w` applied to an operand that is not an
error lies outside the modelled fragment: package fmt counts such a verb when
it chooses between `*fmt.wrapError` and `*fmt.wrapErrors`, this function does
not. -/
def fmtWrapped : GoString → List (GoAny E) → List E
  | [], _ => []
  | [_], _ => []
  | c :: verb :: fs, a =>
    if c = '%' then
      if verb = '%' then fmtWrapped fs a
      else
        match a with
        | [] => fmtWrapped fs []
        | .err e :: rest => if verb = 'w' then e :: fmtWrapped fs rest else fmtWrapped fs rest
        | _ :: rest => fmtWrapped fs rest
    else fmtWrapped (verb :: fs) a

end Fmt

/-! ## Package terr: traced errors as a tree -/

namespace Terr

mutual
/-- Non-nil values of the interface `error`, by dynamic type: the pointer types
of the standard library (`*errors.errorString` for `errors.New` and for
sentinels such as `io.EOF`, `*fmt.wrapError` and `*fmt.wrapErrors` for the
results of `fmt.Errorf` with one or with several `%w`), each with the identity
of the pointer, and the traced errors of this package. -/
inductive GoError where
  | errorString (id : Nat) (s : GoString)
  | wrapError (id : Nat) (msg : GoString) (err : GoError)
  | wrapErrors (id : Nat) (msg : GoString) (errs : List GoError)
  | traced (te : tracedError)
/-- The struct `tracedError` behind a pointer `*tracedError` with identity
`addr`: the wrapped error, the location, and the children.  The children are
values of the interface `TracedError`; an implementation of that interface is
observed only through `Error`, `Location` and `Children`, and is represented by
the node with the same three observations. -/
inductive tracedError where
  | mk (addr : Nat) (err : GoError) (loc : GoString) (terrs : List tracedError)
end

/-- Values of the interface `TracedError`. -/
abbrev TracedError := tracedError

/-- Operands of the variadic parameter `a ...any`. -/
abbrev Any := GoAny GoError

/-- Field `err`. -/
def tracedError.err : tracedError → GoError
  | .mk _ err _ _ => err

/-- Identity of the pointer. -/
def tracedError.addr : tracedError → Nat
  | .mk addr _ _ _ => addr

mutual
/-- Method `Error` of the interface `error`. -/
def GoError.Error : GoError → GoString
  | .errorString _ s => s
  | .wrapError _ msg _ => msg
  | .wrapErrors _ msg _ => msg
  | .traced te => te.Error
/-- Method `Error` of `*tracedError`: `return e.err.Error()`. -/
def tracedError.Error : tracedError → GoString
  | .mk _ err _ _ => err.Error
end

/-- Method `Location`: `return e.loc`. -/
def tracedError.Location : tracedError → GoString
  | .mk _ _ loc _ => loc

/-- Method `Children`: `return e.terrs`. -/
def tracedError.Children : tracedError → List TracedError
  | .mk _ _ _ terrs => terrs

/-- Name of the dynamic type, as `reflect.TypeOf(x).String()` gives it. -/
def GoError.typeName : GoError → GoString
  | .errorString _ _ => "*errors.errorString".toList
  | .wrapError _ _ _ => "*fmt.wrapError".toList
  | .wrapErrors _ _ _ => "*fmt.wrapErrors".toList
  | .traced _ => "*terr.tracedError".toList

/-- The call `fmt.Errorf(format, a...)`: a freshly allocated error whose
message is the formatted text and which wraps the operands of `%w`. -/
def fmtErrorf (fresh : Nat) (format : GoString) (a : List Any) : GoError :=
  let s := fmtSprintf GoError.Error GoError.typeName format a
  match fmtWrapped format a with
  | [] => .errorString fresh s
  | [e] => .wrapError fresh s e
  | es => .wrapErrors fresh s es

/-- Path of the source file of the package, as the run time reports it. -/
def srcFile : GoString := "terr.go".toList

/-- The function `getLocation(depth)`; `stack` is the call stack at the call of
`getLocation`, and line 44 is the call site of `runtime.Caller`.  The ok result
of `runtime.Caller` is discarded. -/
def getLocation (stack : List Frame) (depth : Nat) : GoString :=
  match runtimeCaller (⟨srcFile, 44⟩ :: stack) (depth + 1) with
  | (file, line, _) => file ++ ":".toList ++ itoa line

/-- The function `newTracedError(err, children)`; line 38 is the call site of
`getLocation(2)`, and `addr` is the identity of the allocated node. -/
def newTracedError (stack : List Frame) (addr : Nat) (err : GoError)
    (children : List TracedError) : GoError :=
  .traced (.mk addr err (getLocation (⟨srcFile, 38⟩ :: stack) 2) children)

/-- The type assertion `obj.(TracedError)`. -/
def asTracedError : Any → Option TracedError
  | .err (.traced te) => some te
  | _ => none

/-- The type assertion `err.(TracedError)` on an error. -/
def GoError.asTracedError : GoError → Option TracedError
  | .traced te => some te
  | _ => none

/-- The function `filterTracedErrors(objs)`: the loop appends every operand
that is a traced error to `errors`, which starts as the nil slice. -/
def filterTracedErrors (objs : List Any) : List TracedError :=
  objs.foldl
    (fun errors obj =>
      match asTracedError obj with
      | some err => errors ++ [err]
      | none => errors)
    []

mutual
/-- The function `treeRepr(te, depth, prevErrLen)`.  The first line is built
from `errMsg[prevErrLen:]`, which panics when `prevErrLen` exceeds the length
of the message; then the lines of every child are appended. -/
def treeRepr : TracedError → Nat → Nat → Outcome (List GoString)
  | .mk addr err loc terrs, depth, prevErrLen =>
    let errMsg := (tracedError.mk addr err loc terrs).Error
    match sliceFrom errMsg prevErrLen with
    | .panics why => .panics why
    | .returns tail =>
      let locations := [stringsRepeatTab depth ++ tail ++ " @ ".toList ++ loc]
      treeReprLoop terrs (depth + 1) errMsg.length locations
/-- The loop `for _, child := range te.Children()` of `treeRepr`, with the
lines accumulated so far. -/
def treeReprLoop : List TracedError → Nat → Nat → List GoString → Outcome (List GoString)
  | [], _, _, locations => .returns locations
  | child :: rest, depth, prevErrLen, locations =>
    match treeRepr child depth prevErrLen with
    | .panics why => .panics why
    | .returns lines => treeReprLoop rest depth prevErrLen (locations ++ lines)
end

/-- The function `Newf(format, a...)`; line 103 is the call site of
`newTracedError`.  The error made by `fmt.Errorf` and the node have different
dynamic types, so both may carry the identity `fresh`. -/
def Newf (stack : List Frame) (fresh : Nat) (format : GoString) (a : List Any) : GoError :=
  newTracedError (⟨srcFile, 103⟩ :: stack) fresh (fmtErrorf fresh format a)
    (filterTracedErrors a)

/-- The function `Trace(err)`; lines 114 and 117 are the call sites of
`newTracedError`. -/
def Trace (stack : List Frame) (fresh : Nat) (err : Option GoError) : Option GoError :=
  match err with
  | none => none
  | some (.traced te) =>
    some (newTracedError (⟨srcFile, 114⟩ :: stack) fresh (.traced te) [te])
  | some e => some (newTracedError (⟨srcFile, 117⟩ :: stack) fresh e [])

/-- The function `TraceTree(err)`. -/
def TraceTree (err : Option GoError) : Option TracedError :=
  match err with
  | some (.traced te) => some te
  | _ => none

/-- Interface equality `err == target` on non-nil errors: equal dynamic types
and, all dynamic types being pointers, the same pointer. -/
def ifaceEq : GoError → GoError → Bool
  | .errorString i _, .errorString j _ => i == j
  | .wrapError i _ _, .wrapError j _ _ => i == j
  | .wrapErrors i _ _, .wrapErrors j _ _ => i == j
  | .traced a, .traced b => a.addr == b.addr
  | _, _ => false

mutual
/-- The loop of `errors.Is` of the standard library on a non-nil target.  All
dynamic types are comparable pointers, none has a method `Is`;
`*fmt.wrapError` has `Unwrap() error`, `*fmt.wrapErrors` has
`Unwrap() []error`, and `*tracedError` has no method `Unwrap`, so the loop ends
at a traced node. -/
def errorsIsLoop : GoError → GoError → Bool
  | .errorString i s, target => ifaceEq (.errorString i s) target
  | .wrapError i msg e, target => ifaceEq (.wrapError i msg e) target || errorsIsLoop e target
  | .wrapErrors i msg es, target =>
    ifaceEq (.wrapErrors i msg es) target || errorsIsAny es target
  | .traced te, target => ifaceEq (.traced te) target
/-- The loop over the result of `Unwrap() []error` in `errors.Is`. -/
def errorsIsAny : List GoError → GoError → Bool
  | [], _ => false
  | e :: es, target => errorsIsLoop e target || errorsIsAny es target
end

/-- The function `errors.Is(err, target)` of the standard library. -/
def errorsIs (err target : Option GoError) : Bool :=
  match err, target with
  | none, none => true
  | none, some _ => false
  | some _, none => false
  | some e, some t => errorsIsLoop e t

/-- Pre-order listing of the nodes of a tree: the node, then the nodes of each
child in stored order. -/
def preorder : TracedError → List TracedError
  | .mk addr err loc terrs => .mk addr err loc terrs :: preorderAll terrs
where
  /-- Pre-order listing of a forest. -/
  preorderAll : List TracedError → List TracedError
    | [] => []
    | child :: rest => preorder child ++ preorderAll rest

/-- Every node's message is at least as long as `prevErrLen`, the length of
its parent's message. -/
def lengthsGrow : TracedError → Nat → Bool
  | .mk addr err loc terrs, prevErrLen =>
    decide (prevErrLen ≤ (tracedError.mk addr err loc terrs).Error.length) &&
      lengthsGrowAll terrs (tracedError.mk addr err loc terrs).Error.length
where
  /-- The same for every tree of a forest. -/
  lengthsGrowAll : List TracedError → Nat → Bool
    | [], _ => true
    | child :: rest, prevErrLen => lengthsGrow child prevErrLen && lengthsGrowAll rest prevErrLen

end Terr

/-! ## Package errtx: traced errors as a list of spans -/

namespace Errtx

/-- The struct `errorSpan`. -/
structure errorSpan where
  msg : GoString
  loc : GoString
  deriving DecidableEq, Repr

mutual
/-- Non-nil values of the interface `error`, by dynamic type: the pointer types
of the standard library, as in package terr, and the struct values
`tracedError` of this package. -/
inductive GoError where
  | errorString (id : Nat) (s : GoString)
  | wrapError (id : Nat) (msg : GoString) (err : GoError)
  | wrapErrors (id : Nat) (msg : GoString) (errs : List GoError)
  | traced (te : tracedError)
/-- The struct `tracedError`: the wrapped error and the spans. -/
inductive tracedError where
  | mk (err : GoError) (spans : List errorSpan)
end

/-- Operands of the variadic parameter `a ...any`. -/
abbrev Any := GoAny GoError

/-- Field `err`. -/
def tracedError.err : tracedError → GoError
  | .mk err _ => err

/-- Field `spans`. -/
def tracedError.spans : tracedError → List errorSpan
  | .mk _ spans => spans

mutual
/-- Method `Error` of the interface `error`. -/
def GoError.Error : GoError → GoString
  | .errorString _ s => s
  | .wrapError _ msg _ => msg
  | .wrapErrors _ msg _ => msg
  | .traced te => te.Error
/-- Method `Error` of `tracedError`: `return e.err.Error()`. -/
def tracedError.Error : tracedError → GoString
  | .mk err _ => err.Error
end

mutual
/-- The function `errors.Unwrap(err)` of the standard library: the result of
the method `Unwrap() error` when the dynamic type has it, nil otherwise. -/
def errorsUnwrap : GoError → Option GoError
  | .errorString _ _ => none
  | .wrapError _ _ err => some err
  | .wrapErrors _ _ _ => none
  | .traced te => te.Unwrap
/-- Method `Unwrap` of `tracedError`: `return errors.Unwrap(e.err)`. -/
def tracedError.Unwrap : tracedError → Option GoError
  | .mk err _ => errorsUnwrap err
end

/-- Name of the dynamic type, as `reflect.TypeOf(x).String()` gives it. -/
def GoError.typeName : GoError → GoString
  | .errorString _ _ => "*errors.errorString".toList
  | .wrapError _ _ _ => "*fmt.wrapError".toList
  | .wrapErrors _ _ _ => "*fmt.wrapErrors".toList
  | .traced _ => "errtx.tracedError".toList

/-- The call `fmt.Errorf(format, a...)`: a freshly allocated error whose
message is the formatted text and which wraps the operands of `%w`. -/
def fmtErrorf (fresh : Nat) (format : GoString) (a : List Any) : GoError :=
  let s := fmtSprintf GoError.Error GoError.typeName format a
  match fmtWrapped format a with
  | [] => .errorString fresh s
  | [e] => .wrapError fresh s e
  | es => .wrapErrors fresh s es

/-- Path of the source file of the package, as the run time reports it. -/
def srcFile : GoString := "errtx.go".toList

/-- The function `getLocation()`; `stack` is the call stack at the call of
`getLocation`, and line 23 is the call site of `runtime.Caller(2)`.  The ok
result of `runtime.Caller` is discarded. -/
def getLocation (stack : List Frame) : GoString :=
  match runtimeCaller (⟨srcFile, 23⟩ :: stack) 2 with
  | (file, line, _) => file ++ ":".toList ++ itoa line

/-- The first loop of `traceRepr`: the capacity `lenRepr` of the buffer. -/
def traceReprLen (spans : List errorSpan) : Nat :=
  spans.foldl
    (fun lenRepr span =>
      let lenRepr := if span.msg ≠ [] then lenRepr + (span.msg.length + 1) else lenRepr
      if span.loc ≠ [] then lenRepr + (span.loc.length + 2) else lenRepr)
    0

/-- The second loop of `traceRepr` over the spans in the order it visits
them, appending to `buffer`. -/
def traceReprLoop : List errorSpan → GoString → GoString
  | [], buffer => buffer
  | span :: rest, buffer =>
    let buffer := if span.msg ≠ [] then buffer ++ span.msg ++ ['\n'] else buffer
    let buffer := if span.loc ≠ [] then buffer ++ ['\t'] ++ span.loc ++ ['\n'] else buffer
    traceReprLoop rest buffer

/-- Method `traceRepr`.  The second loop runs from the last span down to the
first; `buffer[:len(buffer)-1]` panics on an empty buffer.  The capacity
`traceReprLen e.spans` given to `make` does not influence the result. -/
def traceRepr (e : tracedError) : Outcome GoString :=
  if e.spans.length = 0 then .returns []
  else
    let buffer := traceReprLoop e.spans.reverse []
    if buffer.length = 0 then .panics .sliceBoundsOutOfRange
    else .returns (buffer.take (buffer.length - 1))

/-- The function `Newf(format, a...)`; line 92 is the call site of
`getLocation`. -/
def Newf (stack : List Frame) (fresh : Nat) (format : GoString) (a : List Any) : GoError :=
  let err := fmtErrorf fresh format a
  let spans : List errorSpan := [⟨err.Error, getLocation (⟨srcFile, 92⟩ :: stack)⟩]
  .traced (.mk err spans)

/-- The function `Wrapf(err, format, a...)`; lines 109 and 122 are the call
sites of `getLocation`.  The two errors made by `fmt.Errorf` receive the
identities `fresh` and `fresh + 1`. -/
def Wrapf (stack : List Frame) (fresh : Nat) (err : Option GoError) (format : GoString)
    (a : List Any) : Option GoError :=
  match err with
  | none => none
  | some err =>
    let newErr := fmtErrorf fresh format a
    match err with
    | .traced te =>
      let spans := te.spans ++ [⟨newErr.Error, getLocation (⟨srcFile, 109⟩ :: stack)⟩]
      let err := fmtErrorf (fresh + 1) "%w - %w".toList [.err newErr, .err te.err]
      some (.traced (.mk err spans))
    | err =>
      let spans : List errorSpan :=
        [⟨err.Error, []⟩, ⟨newErr.Error, getLocation (⟨srcFile, 122⟩ :: stack)⟩]
      some (.traced (.mk (fmtErrorf (fresh + 1) "%w - %w".toList [.err newErr, .err err]) spans))

/-- The function `Trace(err)`; lines 134 and 146 are the call sites of
`getLocation`.  There is no nil check: on a nil `err` the type assertion
fails and `err.Error()` dereferences nil. -/
def Trace (stack : List Frame) (err : Option GoError) : Outcome (Option GoError) :=
  match err with
  | some (.traced te) =>
    .returns (some (.traced (.mk te.err (te.spans ++ [⟨[], getLocation (⟨srcFile, 134⟩ :: stack)⟩]))))
  | some err =>
    .returns (some (.traced (.mk err [⟨err.Error, []⟩, ⟨[], getLocation (⟨srcFile, 146⟩ :: stack)⟩])))
  | none => .panics .nilDereference

end Errtx

/-! ## Notions used to state the properties -/

/-- Text `file:line` of the innermost call site of `stack`, the caller of the
public function; with an empty stack the file is empty and the line is 0. -/
def callSite (stack : List Frame) : GoString :=
  match stack with
  | [] => ":0".toList
  | f :: _ => f.file ++ ":".toList ++ itoa f.line

/-- Number of lines of a text: one more than its number of line feeds. -/
def lineCount (s : GoString) : Nat := s.count '\n' + 1

/-- The function `strings.Join(lines, "\n")`. -/
def joinLines (lines : List GoString) : GoString := ['\n'].intercalate lines

namespace Terr

/-- A node of a tree together with the depth at which the renderer reaches it
and the length of the full message of its parent (0 for the root). -/
structure Placed where
  depth : Nat
  prevErrLen : Nat
  node : TracedError

/-- Pre-order listing of the nodes of a tree reached at `depth` below a parent
whose full message has length `prevErrLen`: every child is placed one level
deeper, below the full message of its own parent. -/
def placed : TracedError → Nat → Nat → List Placed
  | .mk addr err loc terrs, depth, prevErrLen =>
    ⟨depth, prevErrLen, .mk addr err loc terrs⟩ ::
      placedAll terrs (depth + 1) (tracedError.mk addr err loc terrs).Error.length
where
  /-- The same for a forest. -/
  placedAll : List TracedError → Nat → Nat → List Placed
    | [], _, _ => []
    | child :: rest, depth, prevErrLen =>
      placed child depth prevErrLen ++ placedAll rest depth prevErrLen

/-- The display line of a placed node: `depth` tabs, the tail of the message
beyond the length of the parent's message, then ` @ ` and the location. -/
def lineOf (x : Placed) : GoString :=
  stringsRepeatTab x.depth ++ x.node.Error.drop x.prevErrLen ++ " @ ".toList ++ x.node.Location

end Terr

/-! ## Sample values -/

namespace Terr

/-- The sentinel `io.EOF`, a value made by `errors.New("EOF")`. -/
def ioEOF : GoError := .errorString 0 "EOF".toList

/-- The error `Newf("x")` made at `main.go:10`. -/
def sampleLeaf : GoError := Newf [⟨"main.go".toList, 10⟩] 1 "x".toList []

/-- The error `Newf("ctx: %w", Newf("x"))` made at `main.go:11`. -/
def sampleWrapped : GoError := Newf [⟨"main.go".toList, 11⟩] 2 "ctx: %w".toList [.err sampleLeaf]

/-- A value of the interface `TracedError` with message `x`, an empty location
and no children. -/
def sampleUnlocated : TracedError := .mk 0 (.errorString 0 "x".toList) [] []

end Terr

namespace Errtx

/-- The type assertion `err.(tracedError)`. -/
def GoError.asTracedError : GoError → Option tracedError
  | .traced te => some te
  | _ => none

/-- The error `Newf("")` made at `main.go:10`. -/
def sampleBare : GoError := Newf [⟨"main.go".toList, 10⟩] 0 [] []

/-- The error `Wrapf(Wrapf(Newf(""), "ctx1"), "ctx2")`, wrapped at `main.go:20`
and at `main.go:30`. -/
def sampleWrappedTwice : Option GoError :=
  Wrapf [⟨"main.go".toList, 30⟩] 3
    (Wrapf [⟨"main.go".toList, 20⟩] 1 (some sampleBare) "ctx1".toList []) "ctx2".toList []

end Errtx

/-! ## Notions used to state the properties of package errtx -/

namespace Errtx

/-- The trace of the error being wrapped: the spans of a traced error, and for
an untraced error one entry with its text and no location. -/
def priorSpans : GoError → List errorSpan
  | .traced te => te.spans
  | err => [⟨err.Error, []⟩]

/-- The spans of the traced errors found among the operands, in operand
order. -/
def tracedArgSpans : List Any → List errorSpan
  | [] => []
  | .err (.traced te) :: rest => te.spans ++ tracedArgSpans rest
  | _ :: rest => tracedArgSpans rest

/-- The lines one span contributes to a rendered trace: its message when that
is not empty, then a tab and its location when that is not empty. -/
def spanLines (span : errorSpan) : List GoString :=
  (if span.msg ≠ [] then [span.msg] else []) ++
    (if span.loc ≠ [] then ['\t' :: span.loc] else [])

/-- The lines of a rendered trace: the lines of the spans, from the span added
last to the oldest. -/
def traceLines (spans : List errorSpan) : List GoString :=
  spans.reverse.flatMap spanLines

/-- The errors obtained by a finite sequence of calls of `Newf`, `Wrapf` and
`Trace` on non-nil errors: the wrapped or traced error is any untraced error or
a traced error obtained before; the formatting operands are arbitrary. -/
inductive Built : GoError → Prop where
  | newf (stack : List Frame) (fresh : Nat) (format : GoString) (a : List Any) :
    Built (Newf stack fresh format a)
  | wrapf (stack : List Frame) (fresh : Nat) (err : GoError) (format : GoString) (a : List Any)
    (result : GoError) (hprev : ∀ te, err = .traced te → Built err)
    (hcall : Wrapf stack fresh (some err) format a = some result) : Built result
  | trace (stack : List Frame) (err : GoError) (result : GoError)
    (hprev : ∀ te, err = .traced te → Built err)
    (hcall : Trace stack (some err) = .returns (some result)) : Built result

end Errtx

/-! ## Package errtx with the backing arrays of the span slices

The functions of package errtx once more, with the slice `spans` as a slice
header over a backing array in memory, so that sharing of backing arrays and
writes through `append` are visible. -/

namespace Errtx.Mem

/-- A slice header of type `[]errorSpan`: backing array, length, capacity. -/
structure Slice where
  array : Nat
  len : Nat
  cap : Nat
  deriving DecidableEq, Repr

/-- The memory: the backing arrays allocated so far, each the list of its
cells, addressed by position. -/
abbrev Memory := List (List errorSpan)

/-- The elements of a slice: the first `len` cells of its backing array. -/
def elems (m : Memory) (s : Slice) : List errorSpan :=
  (m.getD s.array []).take s.len

/-- A composite literal `[]errorSpan{...}`: a new backing array holding exactly
the given cells. -/
def literal (m : Memory) (cells : List errorSpan) : Memory × Slice :=
  (m ++ [cells], ⟨m.length, cells.length, cells.length⟩)

/-- Capacity chosen by the run time when `append` has to grow a slice of
capacity `oldCap` to hold `newLen` elements: `newLen` when that exceeds twice
the old capacity, twice the old capacity below 256 elements, and a growth by a
quarter plus 192 from there on.  The rounding up to an allocation size class
is left out: the result is the capacity of the run time for the small
capacities 1, 2 and 4 reached in the sample values, while for larger arrays
the run time may round up further (from 16 cells it gives 35, not 32). -/
def growCap (oldCap newLen : Nat) : Nat :=
  if newLen > oldCap + oldCap then newLen
  else if oldCap < 256 then oldCap + oldCap
  else max newLen (oldCap + (oldCap + 768) / 4)

/-- The built-in `append(s, x)`: with spare capacity it writes `x` into cell
`len` of the backing array of `s`, in place; otherwise it copies the elements
to a new, larger backing array. -/
def append (m : Memory) (s : Slice) (x : errorSpan) : Memory × Slice :=
  if s.len < s.cap then
    (m.set s.array ((m.getD s.array []).set s.len x), ⟨s.array, s.len + 1, s.cap⟩)
  else
    let cap := growCap s.cap (s.len + 1)
    (m ++ [elems m s ++ [x] ++ List.replicate (cap - (s.len + 1)) ⟨[], []⟩],
      ⟨m.length, s.len + 1, cap⟩)

/-- The struct `tracedError`, with the slice header in the field `spans`. -/
structure tracedError where
  err : GoError
  spans : Slice

/-- A non-nil value of the interface `error`: an untraced error, or a
`tracedError` value. -/
inductive error where
  | untraced (e : GoError)
  | traced (te : tracedError)

/-- Method `Error`. -/
def error.Error : error → GoString
  | .untraced e => e.Error
  | .traced te => te.err.Error

/-- Method `traceRepr`, reading the spans from memory. -/
def traceRepr (m : Memory) (e : tracedError) : Outcome GoString :=
  Errtx.traceRepr (.mk e.err (elems m e.spans))

/-- The function `Newf(format, a...)`. -/
def Newf (stack : List Frame) (fresh : Nat) (m : Memory) (format : GoString) (a : List Any) :
    Memory × error :=
  let err := fmtErrorf fresh format a
  let (m, spans) := literal m [⟨err.Error, getLocation (⟨srcFile, 92⟩ :: stack)⟩]
  (m, .traced ⟨err, spans⟩)

/-- The function `Wrapf(err, format, a...)`: the copy `te` of the traced error
receives the slice returned by `append(te.spans, ...)`. -/
def Wrapf (stack : List Frame) (fresh : Nat) (m : Memory) (err : Option error)
    (format : GoString) (a : List Any) : Memory × Option error :=
  match err with
  | none => (m, none)
  | some err =>
    let newErr := fmtErrorf fresh format a
    match err with
    | .traced te =>
      let (m, spans) := append m te.spans ⟨newErr.Error, getLocation (⟨srcFile, 109⟩ :: stack)⟩
      let err := fmtErrorf (fresh + 1) "%w - %w".toList [.err newErr, .err te.err]
      (m, some (.traced ⟨err, spans⟩))
    | .untraced err =>
      let (m, spans) := literal m
        [⟨err.Error, []⟩, ⟨newErr.Error, getLocation (⟨srcFile, 122⟩ :: stack)⟩]
      (m, some (.traced ⟨fmtErrorf (fresh + 1) "%w - %w".toList [.err newErr, .err err], spans⟩))

/-- The function `Trace(err)`. -/
def Trace (stack : List Frame) (m : Memory) (err : Option error) :
    Outcome (Memory × Option error) :=
  match err with
  | some (.traced te) =>
    let (m, spans) := append m te.spans ⟨[], getLocation (⟨srcFile, 134⟩ :: stack)⟩
    .returns (m, some (.traced ⟨te.err, spans⟩))
  | some (.untraced err) =>
    let (m, spans) := literal m [⟨err.Error, []⟩, ⟨[], getLocation (⟨srcFile, 146⟩ :: stack)⟩]
    .returns (m, some (.traced ⟨err, spans⟩))
  | none => .panics .nilDereference

/-- A slice header is well formed in a memory: its backing array exists and
has `cap` cells, of which at most `cap` are in use. -/
def Slice.valid (m : Memory) (s : Slice) : Prop :=
  s.array < m.length ∧ (m.getD s.array []).length = s.cap ∧ s.len ≤ s.cap

/-- The spans and the rendered trace of an error in a memory. -/
def observe (m : Memory) (e : Option error) : Option (List errorSpan × Outcome GoString) :=
  match e with
  | some (.traced te) => some (elems m te.spans, traceRepr m te)
  | _ => none

end Errtx.Mem

/-! ## More sample values -/

namespace Terr

/-- A three-level chain whose messages grow: `a` above `ab` above `abc`. -/
def sampleGrowing : TracedError :=
  .mk 3 (.errorString 3 "a".toList) "main.go:3".toList
    [.mk 2 (.errorString 2 "ab".toList) "main.go:2".toList
      [.mk 1 (.errorString 1 "abc".toList) "main.go:1".toList []]]

end Terr

namespace Errtx

/-- The sentinel `io.EOF`, a value made by `errors.New("EOF")`. -/
def ioEOF : GoError := .errorString 0 "EOF".toList

/-- The error `Newf("a")` made at `main.go:10`. -/
def sampleA : GoError := Newf [⟨"main.go".toList, 10⟩] 1 "a".toList []

/-- The error `Newf("b")` made at `main.go:11`. -/
def sampleB : GoError := Newf [⟨"main.go".toList, 11⟩] 2 "b".toList []

/-- The error `Wrapf(Newf("a"), "ctx %v", Newf("b"))`, wrapped at
`main.go:12`. -/
def sampleWrapArg : Option GoError :=
  Wrapf [⟨"main.go".toList, 12⟩] 3 (some sampleA) "ctx %v".toList [.err sampleB]

end Errtx

namespace Errtx.Mem

/-- Memory and error after `u := Wrapf(Wrapf(Newf("e"), "c1"), "c2")`, made at
`main.go:10`, `main.go:20` and `main.go:30`, starting from an empty memory. -/
def sampleShared : Memory × Option error :=
  let (m, e) := Newf [⟨"main.go".toList, 10⟩] 0 [] "e".toList []
  let (m, u1) := Wrapf [⟨"main.go".toList, 20⟩] 1 m (some e) "c1".toList []
  Wrapf [⟨"main.go".toList, 30⟩] 3 m u1 "c2".toList []

/-- Memory and error after `t := Wrapf(u, "a")` at `main.go:40`. -/
def sampleFirstWrap : Memory × Option error :=
  Wrapf [⟨"main.go".toList, 40⟩] 5 sampleShared.1 sampleShared.2 "a".toList []

/-- Memory after a later `Wrapf(u, "b")` at `main.go:50`. -/
def sampleSecondWrap : Memory × Option error :=
  Wrapf [⟨"main.go".toList, 50⟩] 7 sampleFirstWrap.1 sampleShared.2 "b".toList []

/-- Memory after a later `Trace(u)` at `main.go:60` instead. -/
def sampleLaterTrace : Outcome (Memory × Option error) :=
  Trace [⟨"main.go".toList, 60⟩] sampleFirstWrap.1 sampleShared.2

end Errtx.Mem

/-! ## Properties of the shared notions -/

/-- A location always contains the colon of the format `%s:%d`. -/
theorem callSite_ne_nil (stack : List Frame) : callSite stack ≠ [] := by
  cases stack <;> simp [callSite]

/-! ## Properties of package terr -/

namespace Terr

/-- The location stored by `newTracedError` is the call site of the public
function that called it. -/
theorem getLocation_newTracedError (stack : List Frame) (f g : Frame) :
    getLocation (f :: g :: stack) 2 = callSite stack := by
  cases stack with
  | nil => rfl
  | cons h rest => simp [getLocation, runtimeCaller, callSite]

/-- The loop of `filterTracedErrors` started from `errors`. -/
theorem filterTracedErrors_foldl (objs : List Any) (errors : List TracedError) :
    objs.foldl
        (fun errors obj =>
          match asTracedError obj with
          | some err => errors ++ [err]
          | none => errors)
        errors
      = errors ++ objs.filterMap asTracedError := by
  induction objs generalizing errors with
  | nil => simp
  | cons obj rest ih =>
    simp only [List.foldl_cons, ih]
    cases h : asTracedError obj <;> simp [List.filterMap_cons, h]

/-- The function `filterTracedErrors` is the order-preserving filter of the
operands that are traced errors. -/
theorem filterTracedErrors_eq (objs : List Any) :
    filterTracedErrors objs = objs.filterMap asTracedError := by
  simp [filterTracedErrors, filterTracedErrors_foldl]

/-- C1: for every non-nil error `err`, `Trace(err)` is a non-nil traced node
with the fresh identity, whose message is the message of `err`, whose wrapped
error is `err`, and whose children are `[err]` when `err` is a traced node and
the empty list when `err` is untraced. -/
theorem Trace_wraps (stack : List Frame) (fresh : Nat) (err : GoError) :
    ∃ te : TracedError,
      Trace stack fresh (some err) = some (.traced te) ∧
      te.addr = fresh ∧
      te.Error = err.Error ∧
      te.Children = (err.asTracedError).toList := by
  cases err <;>
    exact ⟨_, rfl, rfl, by simp [tracedError.Error, GoError.Error],
      by simp [tracedError.Children, GoError.asTracedError]⟩

/-- C2: the children of `Newf(format, a...)` are the operands that are traced
errors, in the order supplied, whatever the format; two traced operands give
exactly these two children in order, and operands without a traced error give
no child. -/
theorem Newf_children (stack : List Frame) (fresh : Nat) (format : GoString) (a : List Any) :
    ∃ te : TracedError,
      TraceTree (some (Newf stack fresh format a)) = some te ∧
      te.Children = a.filterMap asTracedError ∧
      (∀ x y : TracedError, a = [.err (.traced x), .err (.traced y)] → te.Children = [x, y]) ∧
      ((∀ obj ∈ a, asTracedError obj = none) → te.Children = []) := by
  refine ⟨_, rfl, ?_, ?_, ?_⟩
  · simp [tracedError.Children, filterTracedErrors_eq]
  · intro x y h
    subst h
    simp [tracedError.Children, filterTracedErrors_eq, asTracedError]
  · intro h
    simp only [tracedError.Children, filterTracedErrors_eq]
    exact List.filterMap_eq_nil_iff.mpr h

/-- Witness for C2: `Newf("x: %s", "y")` has no child. -/
theorem Newf_children_witness :
    ∃ te : TracedError,
      TraceTree (some (Newf [] 0 "x: %s".toList [.str "y".toList])) = some te ∧
      te.Error = "x: y".toList ∧ te.Children = [] := by
  obtain ⟨te, h1, _, _, h4⟩ := Newf_children [] 0 "x: %s".toList [.str "y".toList]
  refine ⟨te, h1, ?_, h4 (by simp [asTracedError])⟩
  simp only [TraceTree, Newf, newTracedError, Option.some.injEq] at h1
  subst h1
  decide

/-- C7: `Trace(nil)` returns nil, so no traced node is created. -/
theorem Trace_nil (stack : List Frame) (fresh : Nat) :
    Trace stack fresh none = none ∧ TraceTree (Trace stack fresh none) = none := by
  constructor <;> rfl

end Terr

namespace Terr

mutual
/-- The renderer returns the display lines of the placed nodes in pre-order
when every message is at least as long as its parent's, and panics on the
slice expression otherwise. -/
theorem treeRepr_eq : ∀ (te : TracedError) (depth prevErrLen : Nat),
    treeRepr te depth prevErrLen =
      if lengthsGrow te prevErrLen = true then
        .returns ((placed te depth prevErrLen).map lineOf)
      else .panics .sliceBoundsOutOfRange
  | .mk addr err loc terrs, depth, prevErrLen => by
    rw [treeRepr, lengthsGrow, placed]
    simp only [sliceFrom]
    by_cases h : prevErrLen ≤ (tracedError.mk addr err loc terrs).Error.length
    · rw [if_pos h]
      simp only []
      rw [treeReprLoop_eq terrs]
      by_cases h2 : lengthsGrow.lengthsGrowAll terrs
          (tracedError.mk addr err loc terrs).Error.length = true
      · simp [h, h2, lineOf, tracedError.Location]
      · simp [h, h2]
    · rw [if_neg h]
      simp [h]
/-- The loop of the renderer appends the display lines of the placed nodes of
the children, in order. -/
theorem treeReprLoop_eq : ∀ (children : List TracedError) (depth prevErrLen : Nat)
    (locations : List GoString),
    treeReprLoop children depth prevErrLen locations =
      if lengthsGrow.lengthsGrowAll children prevErrLen = true then
        .returns (locations ++ (placed.placedAll children depth prevErrLen).map lineOf)
      else .panics .sliceBoundsOutOfRange
  | [], depth, prevErrLen, locations => by
    simp [treeReprLoop, lengthsGrow.lengthsGrowAll, placed.placedAll]
  | child :: rest, depth, prevErrLen, locations => by
    rw [treeReprLoop, treeRepr_eq child, lengthsGrow.lengthsGrowAll, placed.placedAll]
    by_cases h1 : lengthsGrow child prevErrLen = true
    · rw [if_pos h1]
      simp only []
      rw [treeReprLoop_eq rest]
      by_cases h2 : lengthsGrow.lengthsGrowAll rest prevErrLen = true
      · simp [h1, h2]
      · simp [h1, h2]
    · simp [h1]
end

mutual
/-- Forgetting depth and offset, the placed nodes are the pre-order listing. -/
theorem placed_node : ∀ (te : TracedError) (depth prevErrLen : Nat),
    (placed te depth prevErrLen).map Placed.node = preorder te
  | .mk addr err loc terrs, depth, prevErrLen => by
    rw [placed, preorder, List.map_cons, placedAll_node terrs]
/-- The same for a forest. -/
theorem placedAll_node : ∀ (children : List TracedError) (depth prevErrLen : Nat),
    (placed.placedAll children depth prevErrLen).map Placed.node = preorder.preorderAll children
  | [], _, _ => by simp [placed.placedAll, preorder.preorderAll]
  | child :: rest, depth, prevErrLen => by
    rw [placed.placedAll, preorder.preorderAll, List.map_append, placed_node child,
      placedAll_node rest]
end

end Terr

namespace Terr

/-- C3: when every node's message is at least as long as its parent's,
`treeRepr(root, 0, 0)` returns one line per node in pre-order: the lines are
the display lines of the placed nodes, whose nodes are the pre-order listing of
the tree; a node without children yields exactly one line. -/
theorem treeRepr_one_line_per_node (te : TracedError) (h : lengthsGrow te 0 = true) :
    ∃ lines : List GoString,
      treeRepr te 0 0 = .returns lines ∧
      lines = (placed te 0 0).map lineOf ∧
      (placed te 0 0).map Placed.node = preorder te ∧
      lines.length = (preorder te).length ∧
      (te.Children = [] → lines = [te.Error ++ " @ ".toList ++ te.Location]) := by
  refine ⟨(placed te 0 0).map lineOf, ?_, rfl, placed_node te 0 0, ?_, ?_⟩
  · rw [treeRepr_eq, if_pos h]
  · rw [← placed_node te 0 0, List.length_map, List.length_map]
  · intro hc
    cases te with
    | mk addr err loc terrs =>
      simp only [tracedError.Children] at hc
      subst hc
      simp [placed, placed.placedAll, lineOf, stringsRepeatTab, tracedError.Location]

/-- Witness for C3: the tree of `Trace(Newf("x"))` has two nodes and renders as
two lines. -/
theorem treeRepr_one_line_per_node_witness :
    ∃ lines : List GoString,
      treeRepr (.mk 3 sampleLeaf "main.go:12".toList
          [.mk 1 (.errorString 1 "x".toList) "main.go:10".toList []]) 0 0 = .returns lines ∧
      lines = ["x @ main.go:12".toList, "\t @ main.go:10".toList] := by
  obtain ⟨lines, h1, h2, _, _, _⟩ :=
    treeRepr_one_line_per_node (.mk 3 sampleLeaf "main.go:12".toList
      [.mk 1 (.errorString 1 "x".toList) "main.go:10".toList []]) (by decide)
  refine ⟨lines, h1, ?_⟩
  rw [h2]
  decide

/-- C4, failing input: `Newf("ctx: %w", Newf("x"))` has the message `ctx: x`
and one child with the message `x`; rendering it evaluates `"x"[6:]` and
panics, so no report is produced. -/
theorem Newf_wrapped_render_panics :
    sampleWrapped.Error = "ctx: x".toList ∧
    (TraceTree (some sampleWrapped)).map (fun te => te.Children.map tracedError.Error)
      = some ["x".toList] ∧
    (TraceTree (some sampleWrapped)).map (fun te => treeRepr te 0 0)
      = some (.panics .sliceBoundsOutOfRange) := by
  decide

/-- C5, counterexample: a node with an empty location renders with the
separator ` @ ` still appended, both as a root and as a child of a node made by
`Newf`; the line is not the indented message text alone. -/
theorem treeRepr_empty_location_counterexample :
    treeRepr sampleUnlocated 0 0 = .returns ["x @ ".toList] ∧
    treeRepr sampleUnlocated 0 0 ≠ .returns ["x".toList] ∧
    (TraceTree (some (Newf [⟨"main.go".toList, 10⟩] 1 "%v".toList
        [.err (.traced sampleUnlocated)]))).map (fun te => treeRepr te 0 0)
      = some (.returns ["x @ main.go:10".toList, "\t @ ".toList]) := by
  decide

/-- C5, amended: every line that `treeRepr` returns ends with ` @ ` followed by
the location of its node (lines and nodes paired in pre-order), also when that
location is empty. -/
theorem treeRepr_lines_end_with_location (te : TracedError) (depth prevErrLen : Nat)
    (lines : List GoString) (h : treeRepr te depth prevErrLen = .returns lines) :
    List.Forall₂ (fun line node => (" @ ".toList ++ node.Location) <:+ line)
      lines (preorder te) := by
  rw [treeRepr_eq] at h
  by_cases hg : lengthsGrow te prevErrLen = true
  · rw [if_pos hg] at h
    injection h with h
    subst h
    rw [← placed_node te depth prevErrLen, List.forall₂_map_left_iff,
      List.forall₂_map_right_iff, List.forall₂_same]
    intro x _
    exact ⟨stringsRepeatTab x.depth ++ x.node.Error.drop x.prevErrLen, by simp [lineOf]⟩
  · rw [if_neg hg] at h
    cases h

/-- Witness for C5: the single line of a node with an empty location ends with
the bare separator. -/
theorem treeRepr_lines_end_with_location_witness :
    List.Forall₂ (fun line node => (" @ ".toList ++ node.Location) <:+ line)
      ["x @ ".toList] (preorder sampleUnlocated) :=
  treeRepr_lines_end_with_location sampleUnlocated 0 0 ["x @ ".toList] (by decide)

/-- The part of C6 that holds: `Trace(err)` is a non-nil node with a non-empty
location, the call site; whenever a report is produced its first line is the
message of `err` followed by ` @ ` and that location; and a report is produced
when `err` is untraced. -/
theorem Trace_first_line (stack : List Frame) (fresh : Nat) (err : GoError) :
    ∃ te : TracedError,
      Trace stack fresh (some err) = some (.traced te) ∧
      te.Location = callSite stack ∧ te.Location ≠ [] ∧
      (∀ lines, treeRepr te 0 0 = .returns lines →
        lines.head? = some (err.Error ++ " @ ".toList ++ te.Location)) ∧
      (err.asTracedError = none →
        treeRepr te 0 0 = .returns [err.Error ++ " @ ".toList ++ te.Location]) := by
  have key : ∀ (f : Frame) (children : List TracedError),
      ∃ te : TracedError,
        newTracedError (f :: stack) fresh err children = .traced te ∧
        te.Location = callSite stack ∧ te.Location ≠ [] ∧
        (∀ lines, treeRepr te 0 0 = .returns lines →
          lines.head? = some (err.Error ++ " @ ".toList ++ te.Location)) ∧
        (children = [] →
          treeRepr te 0 0 = .returns [err.Error ++ " @ ".toList ++ te.Location]) := by
    intro f children
    refine ⟨_, rfl, ?_, ?_, ?_, ?_⟩
    · simp [tracedError.Location, getLocation_newTracedError]
    · simp [tracedError.Location, getLocation_newTracedError, callSite_ne_nil]
    · intro lines h
      rw [treeRepr_eq] at h
      split at h
      · injection h with h
        subst h
        simp [placed, lineOf, stringsRepeatTab, tracedError.Error, tracedError.Location]
      · cases h
    · intro hc
      subst hc
      rw [treeRepr_eq]
      simp [lengthsGrow, lengthsGrow.lengthsGrowAll, placed, placed.placedAll, lineOf,
        stringsRepeatTab, tracedError.Error, tracedError.Location]
  cases err with
  | traced child =>
    obtain ⟨te, h1, h2, h3, h4, _⟩ := key ⟨srcFile, 114⟩ [child]
    exact ⟨te, congrArg some h1, h2, h3, h4, by simp [GoError.asTracedError]⟩
  | errorString id s =>
    obtain ⟨te, h1, h2, h3, h4, h5⟩ := key ⟨srcFile, 117⟩ []
    exact ⟨te, congrArg some h1, h2, h3, h4, fun _ => h5 rfl⟩
  | wrapError id msg e =>
    obtain ⟨te, h1, h2, h3, h4, h5⟩ := key ⟨srcFile, 117⟩ []
    exact ⟨te, congrArg some h1, h2, h3, h4, fun _ => h5 rfl⟩
  | wrapErrors id msg es =>
    obtain ⟨te, h1, h2, h3, h4, h5⟩ := key ⟨srcFile, 117⟩ []
    exact ⟨te, congrArg some h1, h2, h3, h4, fun _ => h5 rfl⟩

/-- C6, failing input: for `err = Newf("ctx: %w", Newf("x"))` the node
`Trace(err)` is non-nil, but rendering it panics in the subtree of `err`, so the
report has no first line. -/
theorem Trace_wrapped_render_panics :
    (Trace [⟨"main.go".toList, 12⟩] 3 (some sampleWrapped)).isSome = true ∧
    (TraceTree (Trace [⟨"main.go".toList, 12⟩] 3 (some sampleWrapped))).map
        (fun te => treeRepr te 0 0)
      = some (.panics .sliceBoundsOutOfRange) := by
  decide

end Terr

namespace Terr

/-- C9, failing input: `Trace(io.EOF)` is a node whose wrapped error is
`io.EOF` and whose message is `EOF`, yet `errors.Is(Trace(io.EOF), io.EOF)` is
false, because `*tracedError` has no method `Is` or `Unwrap`; the error
`fmt.Errorf("%w", io.EOF)` does match `io.EOF`. -/
theorem Trace_errorsIs_fails :
    (TraceTree (Trace [⟨"main.go".toList, 10⟩] 1 (some ioEOF))).map
        (fun te => (te.Error, ifaceEq te.err ioEOF))
      = some ("EOF".toList, true) ∧
    errorsIs (Trace [⟨"main.go".toList, 10⟩] 1 (some ioEOF)) (some ioEOF) = false ∧
    errorsIs (some (fmtErrorf 1 "%w".toList [.err ioEOF])) (some ioEOF) = true := by
  decide

/-- The defect behind C9 on every input: for every non-nil untraced error `e`,
`Trace(e)` is a node that keeps `e` as its wrapped error and keeps its message,
and `errors.Is(Trace(e), e)` is false. -/
theorem Trace_errorsIs_untraced (stack : List Frame) (fresh : Nat) (e : GoError)
    (h : e.asTracedError = none) :
    ∃ te : TracedError,
      Trace stack fresh (some e) = some (.traced te) ∧
      te.err = e ∧ te.Error = e.Error ∧
      errorsIs (Trace stack fresh (some e)) (some e) = false := by
  cases e with
  | traced child => simp [GoError.asTracedError] at h
  | errorString id s => exact ⟨_, rfl, rfl, rfl, rfl⟩
  | wrapError id msg inner => exact ⟨_, rfl, rfl, rfl, rfl⟩
  | wrapErrors id msg inner => exact ⟨_, rfl, rfl, rfl, rfl⟩

end Terr

/-! ## Properties of package errtx -/

namespace Errtx

/-- The location stored in a span is the call site of the public function. -/
theorem getLocation_eq (stack : List Frame) (f : Frame) :
    getLocation (f :: stack) = callSite stack := by
  cases stack with
  | nil => rfl
  | cons h rest => simp [getLocation, runtimeCaller, callSite]

/-- The loop of `traceRepr` only appends to the buffer. -/
theorem traceReprLoop_append (spans : List errorSpan) (buffer : GoString) :
    traceReprLoop spans buffer = buffer ++ traceReprLoop spans [] := by
  induction spans generalizing buffer with
  | nil => simp [traceReprLoop]
  | cons span rest ih =>
    rw [traceReprLoop, ih, traceReprLoop, ih (if span.loc ≠ [] then _ else _)]
    by_cases hm : span.msg = [] <;> by_cases hl : span.loc = [] <;> simp [hm, hl]

/-- C8, failing input: `Wrapf(nil, format, a...)` returns nil, but `Trace(nil)`
panics with a nil dereference instead of returning nil. -/
theorem Trace_nil_panics (stack : List Frame) :
    Trace stack none = .panics .nilDereference ∧
    ∀ (fresh : Nat) (format : GoString) (a : List Any), Wrapf stack fresh none format a = none :=
  ⟨rfl, fun _ _ _ => rfl⟩

/-- C10, counterexample: the trace of `Newf("")` is one line, and the trace of
`Wrapf(Wrapf(Newf(""), "ctx1"), "ctx2")` has five lines, not three. -/
theorem Wrapf_twice_counterexample :
    (sampleBare.asTracedError).map traceRepr = some (.returns "\tmain.go:10".toList) ∧
    lineCount "\tmain.go:10".toList = 1 ∧
    (sampleWrappedTwice.bind GoError.asTracedError).map traceRepr
      = some (.returns "ctx2\n\tmain.go:30\nctx1\n\tmain.go:20\n\tmain.go:10".toList) ∧
    lineCount "ctx2\n\tmain.go:30\nctx1\n\tmain.go:20\n\tmain.go:10".toList = 5 := by
  decide

/-- Appending a span with a message and a location to a traced error whose
trace is a non-empty text puts two lines in front of that trace. -/
theorem traceRepr_snoc (err err2 : GoError) (spans : List errorSpan) (s : errorSpan)
    (text : GoString) (htext : traceRepr (.mk err spans) = .returns text) (hne : text ≠ [])
    (hm : s.msg ≠ []) (hl : s.loc ≠ []) :
    traceRepr (.mk err2 (spans ++ [s]))
      = .returns (s.msg ++ '\n' :: '\t' :: (s.loc ++ '\n' :: text)) := by
  unfold traceRepr at htext
  simp only [tracedError.spans] at htext
  split at htext
  · injection htext with htext
    exact absurd htext.symm hne
  · split at htext
    · cases htext
    · rename_i hb
      injection htext with htext
      have hbne : traceReprLoop spans.reverse [] ≠ [] := by
        intro h0
        exact hb (by rw [h0]; rfl)
      have hloop : traceReprLoop (spans ++ [s]).reverse []
          = (s.msg ++ '\n' :: '\t' :: (s.loc ++ ['\n'])) ++ traceReprLoop spans.reverse [] := by
        rw [List.reverse_append, List.reverse_singleton, List.singleton_append, traceReprLoop,
          traceReprLoop_append]
        simp [hm, hl]
      unfold traceRepr
      simp only [tracedError.spans]
      rw [if_neg (by simp), hloop, if_neg (by simp)]
      rw [← List.dropLast_eq_take] at htext ⊢
      rw [List.dropLast_append_of_ne_nil _ hbne, htext]
      simp

/-- C10, amended: for every traced error `e` whose rendered trace is one
non-empty line, the trace of `Wrapf(Wrapf(e, "ctx1"), "ctx2")` has exactly five
lines: `ctx2`, a tab and the location of the outer wrap, `ctx1`, a tab and the
location of the inner wrap, and the line of `e`.  The message lines of the
wraps show only their own message, while the full message is
`ctx2 - ctx1 - ` followed by the message of `e`. -/
theorem Wrapf_twice_five_lines (stack1 stack2 : List Frame) (fresh1 fresh2 : Nat)
    (e : tracedError) (line : GoString)
    (hline : traceRepr e = .returns line) (hne : line ≠ []) (hone : lineCount line = 1)
    (h1 : '\n' ∉ callSite stack1) (h2 : '\n' ∉ callSite stack2) :
    ∃ te : tracedError,
      Wrapf stack2 fresh2 (Wrapf stack1 fresh1 (some (.traced e)) "ctx1".toList [])
          "ctx2".toList [] = some (.traced te) ∧
      traceRepr te = .returns (joinLines ["ctx2".toList, '\t' :: callSite stack2,
        "ctx1".toList, '\t' :: callSite stack1, line]) ∧
      lineCount (joinLines ["ctx2".toList, '\t' :: callSite stack2,
        "ctx1".toList, '\t' :: callSite stack1, line]) = 5 ∧
      te.Error = "ctx2 - ctx1 - ".toList ++ e.Error := by
  have hc1 : (fmtErrorf fresh1 "ctx1".toList []).Error = "ctx1".toList := rfl
  have hc2 : (fmtErrorf fresh2 "ctx2".toList []).Error = "ctx2".toList := rfl
  cases e with
  | mk err spans =>
    refine ⟨_, rfl, ?_, ?_, ?_⟩
    · -- the rendered text
      have step1 := traceRepr_snoc err
        (fmtErrorf (fresh1 + 1) "%w - %w".toList [.err (fmtErrorf fresh1 "ctx1".toList []), .err err])
        spans ⟨"ctx1".toList, callSite stack1⟩ line hline hne (by simp)
        (callSite_ne_nil stack1)
      have step2 := traceRepr_snoc _
        (fmtErrorf (fresh2 + 1) "%w - %w".toList
          [.err (fmtErrorf fresh2 "ctx2".toList []),
            .err (fmtErrorf (fresh1 + 1) "%w - %w".toList
              [.err (fmtErrorf fresh1 "ctx1".toList []), .err err])])
        _ ⟨"ctx2".toList, callSite stack2⟩ _ step1 (by simp)
        (by simp) (callSite_ne_nil stack2)
      simp only [tracedError.spans, tracedError.err, getLocation_eq, hc1, hc2]
      rw [step2]
      simp [joinLines, List.intercalate]
    · -- five lines
      have hl : line.count '\n' = 0 := by
        simpa [lineCount] using hone
      simp [joinLines, List.intercalate, lineCount, List.count_append, List.count_cons, hl,
        List.count_eq_zero.mpr h1, List.count_eq_zero.mpr h2]
    · -- the full message
      simp [tracedError.Error, fmtErrorf, fmtWrapped, fmtSprintf, fmtArg, GoError.Error,
        tracedError.err]

/-- Witness for C10: the error `Newf("")` made at `main.go:10`, wrapped at
`main.go:20` and at `main.go:30`. -/
theorem Wrapf_twice_five_lines_witness :
    ∃ te : tracedError,
      Wrapf [⟨"main.go".toList, 30⟩] 3
          (Wrapf [⟨"main.go".toList, 20⟩] 1
            (some (.traced (.mk (.errorString 0 []) [⟨[], "main.go:10".toList⟩])))
            "ctx1".toList [])
          "ctx2".toList [] = some (.traced te) ∧
      traceRepr te
        = .returns "ctx2\n\tmain.go:30\nctx1\n\tmain.go:20\n\tmain.go:10".toList := by
  obtain ⟨te, h1, h2, _, _⟩ :=
    Wrapf_twice_five_lines [⟨"main.go".toList, 20⟩] [⟨"main.go".toList, 30⟩] 1 3
      (.mk (.errorString 0 []) [⟨[], "main.go:10".toList⟩]) "\tmain.go:10".toList
      (by decide) (by decide) (by decide) (by decide) (by decide)
  refine ⟨te, h1, ?_⟩
  rw [h2]
  decide

end Errtx

/-! ## Properties of package errtx: wrapping -/

namespace Errtx

/-- The message of the error made by `fmt.Errorf` is the formatted text. -/
theorem fmtErrorf_Error (fresh : Nat) (format : GoString) (a : List Any) :
    (fmtErrorf fresh format a).Error = fmtSprintf GoError.Error GoError.typeName format a := by
  unfold fmtErrorf
  split <;> rfl

/-- The message made by the fixed format `%w - %w`. -/
theorem fmtErrorf_dash (fresh : Nat) (x y : GoError) :
    (fmtErrorf fresh "%w - %w".toList [.err x, .err y]).Error
      = x.Error ++ " - ".toList ++ y.Error := by
  simp [fmtErrorf, fmtWrapped, fmtSprintf, fmtArg, GoError.Error]

/-- The spans recorded by `Wrapf` on a non-nil error. -/
theorem Wrapf_spans (stack : List Frame) (fresh : Nat) (err : GoError) (format : GoString)
    (a : List Any) :
    ∃ te : tracedError,
      Wrapf stack fresh (some err) format a = some (.traced te) ∧
      te.spans = priorSpans err ++
        [⟨fmtSprintf GoError.Error GoError.typeName format a, callSite stack⟩] := by
  cases err <;>
    exact ⟨_, rfl, by simp [tracedError.spans, priorSpans, getLocation_eq, fmtErrorf_Error]⟩

/-- C11, counterexample: the spans of `Wrapf(Newf("a"), "ctx %v", Newf("b"))`
are the span of `Newf("a")` and the span of the wrap; the span of the traced
operand `Newf("b")` is not among them. -/
theorem Wrapf_operand_trace_counterexample :
    (sampleWrapArg.bind GoError.asTracedError).map tracedError.spans
      = some [⟨"a".toList, "main.go:10".toList⟩, ⟨"ctx b".toList, "main.go:12".toList⟩] ∧
    tracedArgSpans [.err sampleB] = [⟨"b".toList, "main.go:11".toList⟩] ∧
    (⟨"b".toList, "main.go:11".toList⟩ : errorSpan) ∉
      ([⟨"a".toList, "main.go:10".toList⟩, ⟨"ctx b".toList, "main.go:12".toList⟩] :
        List errorSpan) := by
  decide

/-- C11, amended: for every non-nil `err`, format and operands, the trace
recorded by `Wrapf` is the trace of the error being wrapped (its spans, or one
entry with its text and no location when it is untraced) followed by exactly
one span for the wrap itself; traced errors among the operands add no span,
whatever the operands are. -/
theorem Wrapf_merge (stack : List Frame) (fresh : Nat) (err : GoError) (format : GoString)
    (a : List Any) :
    ∃ te : tracedError,
      Wrapf stack fresh (some err) format a = some (.traced te) ∧
      priorSpans err <+: te.spans ∧
      te.spans.length = (priorSpans err).length + 1 ∧
      te.spans.drop (priorSpans err).length
        = [⟨fmtSprintf GoError.Error GoError.typeName format a, callSite stack⟩] := by
  obtain ⟨te, h1, h2⟩ := Wrapf_spans stack fresh err format a
  refine ⟨te, h1, ?_, ?_, ?_⟩
  · rw [h2]
    exact List.prefix_append _ _
  · rw [h2]
    simp
  · rw [h2]
    simp

/-- C12: for every non-nil `err`, traced or not, the message of
`Wrapf(err, format, a...)` is the formatted new context, then ` - `, then the
message of `err`. -/
theorem Wrapf_message (stack : List Frame) (fresh : Nat) (err : GoError) (format : GoString)
    (a : List Any) :
    ∃ result : GoError,
      Wrapf stack fresh (some err) format a = some result ∧
      result.Error
        = fmtSprintf GoError.Error GoError.typeName format a ++ " - ".toList ++ err.Error := by
  have key : ∀ inner : GoError,
      (fmtErrorf (fresh + 1) "%w - %w".toList
          [.err (fmtErrorf fresh format a), .err inner]).Error
        = fmtSprintf GoError.Error GoError.typeName format a ++ " - ".toList ++ inner.Error := by
    intro inner
    rw [fmtErrorf_dash, fmtErrorf_Error]
  cases err with
  | traced te =>
    cases te with
    | mk inner spans => exact ⟨_, rfl, key inner⟩
  | errorString id s => exact ⟨_, rfl, key _⟩
  | wrapError id msg inner => exact ⟨_, rfl, key _⟩
  | wrapErrors id msg inner => exact ⟨_, rfl, key _⟩

/-- C13, counterexample: `Trace(io.EOF)` wraps `io.EOF` in its field `err`,
and its method `Unwrap` returns nil, not `io.EOF`. -/
theorem Trace_Unwrap_counterexample :
    ∃ te : tracedError,
      Trace [⟨"main.go".toList, 10⟩] (some ioEOF) = .returns (some (.traced te)) ∧
      te.err = ioEOF ∧ te.Unwrap = none :=
  ⟨_, rfl, rfl, rfl⟩

/-- C13, amended: for every traced error `te`, `te.Unwrap()` is
`errors.Unwrap` of the error that `te` wraps, that is the error one level
below the field `err`; for an untraced `e`, `Unwrap` of `Trace(e)` is
`errors.Unwrap(e)`: nil for a sentinel, and the wrapped operand for an error
made by `fmt.Errorf` with one `%w`. -/
theorem Unwrap_delegates (te : tracedError) :
    te.Unwrap = errorsUnwrap te.err ∧
    ∀ (stack : List Frame) (e : GoError), e.asTracedError = none →
      ∃ te2 : tracedError,
        Trace stack (some e) = .returns (some (.traced te2)) ∧
        te2.err = e ∧ te2.Unwrap = errorsUnwrap e ∧
        (∀ id s, e = .errorString id s → te2.Unwrap = none) ∧
        (∀ id msg inner, e = .wrapError id msg inner → te2.Unwrap = some inner) := by
  constructor
  · cases te
    rfl
  · intro stack e h
    cases e with
    | traced child => simp [GoError.asTracedError] at h
    | errorString id s =>
      refine ⟨_, rfl, rfl, rfl, ?_, ?_⟩
      · intro _ _ _
        rfl
      · intro _ _ _ hh
        cases hh
    | wrapError id msg inner =>
      refine ⟨_, rfl, rfl, rfl, ?_, ?_⟩
      · intro _ _ hh
        cases hh
      · intro _ _ _ hh
        cases hh
        rfl
    | wrapErrors id msg inner =>
      refine ⟨_, rfl, rfl, rfl, ?_, ?_⟩
      · intro _ _ hh
        cases hh
      · intro _ _ _ hh
        cases hh

/-- Witness for C13: the sentinel `io.EOF`. -/
theorem Unwrap_delegates_witness :
    ∃ te2 : tracedError,
      Trace [] (some ioEOF) = .returns (some (.traced te2)) ∧
      te2.err = ioEOF ∧ te2.Unwrap = none := by
  obtain ⟨te2, h1, h2, _, h4, _⟩ :=
    (Unwrap_delegates (.mk ioEOF [])).2 [] ioEOF rfl
  exact ⟨te2, h1, h2, h4 0 "EOF".toList rfl⟩

end Errtx

/-! ## Properties of location capture -/

/-- C14, counterexample: with no frame for the caller of the public function,
`runtime.Caller` reports ok = false, and both `getLocation` functions return
the text `:0`, which is not the empty string. -/
theorem getLocation_failure_counterexample :
    (runtimeCaller [⟨Terr.srcFile, 44⟩, ⟨Terr.srcFile, 38⟩, ⟨Terr.srcFile, 103⟩] 3).2.2 = false ∧
    Terr.getLocation [⟨Terr.srcFile, 38⟩, ⟨Terr.srcFile, 103⟩] 2 = ":0".toList ∧
    Terr.getLocation [⟨Terr.srcFile, 38⟩, ⟨Terr.srcFile, 103⟩] 2 ≠ [] ∧
    (runtimeCaller [⟨Errtx.srcFile, 23⟩, ⟨Errtx.srcFile, 92⟩] 2).2.2 = false ∧
    Errtx.getLocation [⟨Errtx.srcFile, 92⟩] = ":0".toList ∧
    Errtx.getLocation [⟨Errtx.srcFile, 92⟩] ≠ [] := by
  decide

/-- C14, amended: when `runtime.Caller` reports ok = false, with an empty file
and line 0, `getLocation` does not fail and returns the format `%s:%d` applied
to these zero values, the text `:0`, in both packages. -/
theorem getLocation_failure (stack1 stack2 : List Frame) (depth : Nat)
    (h1 : (runtimeCaller (⟨Terr.srcFile, 44⟩ :: stack1) (depth + 1)).2.2 = false)
    (h2 : (runtimeCaller (⟨Errtx.srcFile, 23⟩ :: stack2) 2).2.2 = false) :
    Terr.getLocation stack1 depth = ":0".toList ∧ Errtx.getLocation stack2 = ":0".toList := by
  constructor
  · unfold Terr.getLocation
    unfold runtimeCaller at h1 ⊢
    split at h1
    · simp at h1
    · rfl
  · unfold Errtx.getLocation
    unfold runtimeCaller at h2 ⊢
    split at h2
    · simp at h2
    · rfl

/-- Witness for C14: `Newf` reached without any caller frame. -/
theorem getLocation_failure_witness :
    Terr.getLocation [⟨Terr.srcFile, 38⟩, ⟨Terr.srcFile, 103⟩] 2 = ":0".toList ∧
    Errtx.getLocation [⟨Errtx.srcFile, 92⟩] = ":0".toList :=
  getLocation_failure [⟨Terr.srcFile, 38⟩, ⟨Terr.srcFile, 103⟩] [⟨Errtx.srcFile, 92⟩] 2
    (by decide) (by decide)

/-! ## Properties of the span slices in memory -/

namespace Errtx.Mem

/-- Writing cell `n` and taking `n + 1` cells gives the first `n` cells
followed by the written value. -/
theorem take_succ_set (cells : List errorSpan) (n : Nat) (x : errorSpan)
    (h : n < cells.length) : (cells.set n x).take (n + 1) = cells.take n ++ [x] := by
  induction cells generalizing n with
  | nil => simp at h
  | cons c rest ih =>
    cases n with
    | zero => simp
    | succ k =>
      simp only [List.length_cons, Nat.add_lt_add_iff_right] at h
      simp [ih k h]

/-- Right after `append` returns, the elements of the returned slice are the
elements of the old slice followed by the new element. -/
theorem append_elems (m : Memory) (s : Slice) (x : errorSpan) (h : s.valid m) :
    elems (append m s x).1 (append m s x).2 = elems m s ++ [x] := by
  obtain ⟨harr, hcells, hlen⟩ := h
  unfold append
  by_cases hlt : s.len < s.cap
  · rw [if_pos hlt]
    simp only [elems]
    rw [List.getD_eq_getElem?_getD, List.getElem?_set_self harr]
    simp only [Option.getD_some]
    exact take_succ_set _ _ _ (by omega)
  · rw [if_neg hlt]
    simp only [elems]
    rw [List.getD_eq_getElem?_getD, List.getElem?_append_right (Nat.le_refl _)]
    simp only [Nat.sub_self, List.getElem?_cons_zero, Option.getD_some]
    have hl : ((m.getD s.array []).take s.len).length = s.len := by
      rw [List.length_take]
      omega
    exact List.take_left' (by rw [List.length_append, hl]; rfl)

/-- When `append` has to grow the slice, no existing backing array changes. -/
theorem append_full_keeps (m : Memory) (s : Slice) (x : errorSpan) (h : ¬ s.len < s.cap) :
    m <+: (append m s x).1 := by
  unfold append
  rw [if_neg h]
  exact List.prefix_append _ _

/-- C15, failing input: `u := Wrapf(Wrapf(Newf("e"), "c1"), "c2")` has three
spans in a backing array of four cells.  After `t := Wrapf(u, "a")` the spans
and the rendered trace of `t` end with the span of `a`; a later `Wrapf(u, "b")`
or `Trace(u)` writes the same cell, and the spans and the rendered trace of
the unchanged value `t` then show `b`, or the bare location, instead. -/
theorem Wrapf_overwrites_shared_span :
    sampleShared.2.map (fun e =>
        match e with
        | .traced te => (te.spans.len, te.spans.cap)
        | .untraced _ => (0, 0)) = some (3, 4) ∧
    observe sampleFirstWrap.1 sampleFirstWrap.2
      = some ([⟨"e".toList, "main.go:10".toList⟩, ⟨"c1".toList, "main.go:20".toList⟩,
          ⟨"c2".toList, "main.go:30".toList⟩, ⟨"a".toList, "main.go:40".toList⟩],
        .returns "a\n\tmain.go:40\nc2\n\tmain.go:30\nc1\n\tmain.go:20\ne\n\tmain.go:10".toList) ∧
    observe sampleSecondWrap.1 sampleFirstWrap.2
      = some ([⟨"e".toList, "main.go:10".toList⟩, ⟨"c1".toList, "main.go:20".toList⟩,
          ⟨"c2".toList, "main.go:30".toList⟩, ⟨"b".toList, "main.go:50".toList⟩],
        .returns "b\n\tmain.go:50\nc2\n\tmain.go:30\nc1\n\tmain.go:20\ne\n\tmain.go:10".toList) ∧
    (match sampleLaterTrace with
      | .returns (m, _) => observe m sampleFirstWrap.2
      | .panics _ => none)
      = some ([⟨"e".toList, "main.go:10".toList⟩, ⟨"c1".toList, "main.go:20".toList⟩,
          ⟨"c2".toList, "main.go:30".toList⟩, ⟨[], "main.go:60".toList⟩],
        .returns "\tmain.go:60\nc2\n\tmain.go:30\nc1\n\tmain.go:20\ne\n\tmain.go:10".toList) := by
  decide

end Errtx.Mem

/-! ## Properties of package terr: line content -/

namespace Terr

mutual
/-- Every placed node of a tree is the root, with the depth and offset the
renderer was called with, or a child of another placed node, one level deeper
and with that node's full message length as offset. -/
theorem placed_parent : ∀ (te : TracedError) (depth prevErrLen : Nat) (x : Placed),
    x ∈ placed te depth prevErrLen →
      (x.depth = depth ∧ x.prevErrLen = prevErrLen ∧ x.node = te) ∨
      ∃ y ∈ placed te depth prevErrLen,
        x.node ∈ y.node.Children ∧ x.depth = y.depth + 1 ∧
          x.prevErrLen = y.node.Error.length
  | .mk addr err loc terrs, depth, prevErrLen, x, hx => by
    rw [placed] at hx ⊢
    rcases List.mem_cons.mp hx with hroot | hrest
    · left
      subst hroot
      exact ⟨rfl, rfl, rfl⟩
    · right
      rcases placedAll_parent terrs (depth + 1)
          (tracedError.mk addr err loc terrs).Error.length x hrest with
        ⟨c, hc, hd, hp, hn⟩ | ⟨y, hy, h1, h2, h3⟩
      · refine ⟨⟨depth, prevErrLen, .mk addr err loc terrs⟩, List.mem_cons_self _ _, ?_, hd, hp⟩
        rw [hn]
        exact hc
      · exact ⟨y, List.mem_cons_of_mem _ hy, h1, h2, h3⟩
/-- The same for a forest: a placed node is one of the given trees, or a child
of another placed node. -/
theorem placedAll_parent : ∀ (children : List TracedError) (depth prevErrLen : Nat)
    (x : Placed), x ∈ placed.placedAll children depth prevErrLen →
      (∃ c ∈ children, x.depth = depth ∧ x.prevErrLen = prevErrLen ∧ x.node = c) ∨
      ∃ y ∈ placed.placedAll children depth prevErrLen,
        x.node ∈ y.node.Children ∧ x.depth = y.depth + 1 ∧
          x.prevErrLen = y.node.Error.length
  | [], _, _, x, hx => by simp [placed.placedAll] at hx
  | child :: rest, depth, prevErrLen, x, hx => by
    rw [placed.placedAll] at hx ⊢
    rcases List.mem_append.mp hx with hchild | hrest
    · rcases placed_parent child depth prevErrLen x hchild with
        ⟨hd, hp, hn⟩ | ⟨y, hy, h1, h2, h3⟩
      · exact Or.inl ⟨child, List.mem_cons_self _ _, hd, hp, hn⟩
      · exact Or.inr ⟨y, List.mem_append_left _ hy, h1, h2, h3⟩
    · rcases placedAll_parent rest depth prevErrLen x hrest with
        ⟨c, hc, hd, hp, hn⟩ | ⟨y, hy, h1, h2, h3⟩
      · exact Or.inl ⟨c, List.mem_cons_of_mem _ hc, hd, hp, hn⟩
      · exact Or.inr ⟨y, List.mem_append_right _ hy, h1, h2, h3⟩
end

/-- C16: when every node's message is at least as long as its parent's, the
line of the root is its full message without indentation followed by the
location part, and the lines pair with the placed nodes in pre-order: the line
of a node is `depth` tabs, then the tail of its message from offset
`prevErrLen`, then the location part, where the root has depth 0 and offset 0
and every other node is a child of a placed node, one level deeper, with the
full message length of that parent as offset. -/
theorem treeRepr_line_content (te : TracedError) (h : lengthsGrow te 0 = true) :
    ∃ lines : List GoString,
      treeRepr te 0 0 = .returns lines ∧
      lines.head? = some (te.Error ++ " @ ".toList ++ te.Location) ∧
      List.Forall₂
        (fun line x =>
          line = List.replicate x.depth '\t' ++ x.node.Error.drop x.prevErrLen
            ++ " @ ".toList ++ x.node.Location)
        lines (placed te 0 0) ∧
      ∀ x ∈ placed te 0 0,
        (x.depth = 0 ∧ x.prevErrLen = 0 ∧ x.node = te) ∨
        ∃ y ∈ placed te 0 0,
          x.node ∈ y.node.Children ∧ x.depth = y.depth + 1 ∧
            x.prevErrLen = y.node.Error.length := by
  refine ⟨(placed te 0 0).map lineOf, ?_, ?_, ?_, placed_parent te 0 0⟩
  · rw [treeRepr_eq, if_pos h]
  · cases te with
    | mk addr err loc terrs =>
      simp [placed, lineOf, stringsRepeatTab, tracedError.Location]
  · rw [List.forall₂_map_left_iff, List.forall₂_same]
    intro x _
    rfl

/-- Witness for C16: in the chain `a`, `ab`, `abc` the third line shows `c`,
the tail beyond the two bytes of its parent's full message. -/
theorem treeRepr_line_content_witness :
    ∃ lines : List GoString,
      treeRepr sampleGrowing 0 0 = .returns lines ∧
      lines = ["a @ main.go:3".toList, "\tb @ main.go:2".toList, "\t\tc @ main.go:1".toList] := by
  obtain ⟨lines, h1, _, h3, _⟩ := treeRepr_line_content sampleGrowing (by decide)
  refine ⟨lines, h1, ?_⟩
  rw [treeRepr_eq, if_pos (by decide)] at h1
  injection h1 with h1
  rw [← h1]
  decide

end Terr

/-! ## Properties of location capture: the call site -/

/-- C17: for every call of `terr.Newf`, `terr.Trace`, `errtx.Newf`,
`errtx.Wrapf` and `errtx.Trace` on a non-nil error, made from the call site
`f`, the location stored in the new node, or in the span added last, is the
file of `f`, a colon, and the line of `f`. -/
theorem location_is_call_site (f : Frame) (rest : List Frame) :
    (∀ fresh format a,
      (Terr.TraceTree (some (Terr.Newf (f :: rest) fresh format a))).map
          Terr.tracedError.Location
        = some (f.file ++ ":".toList ++ itoa f.line)) ∧
    (∀ fresh err,
      (Terr.TraceTree (Terr.Trace (f :: rest) fresh (some err))).map Terr.tracedError.Location
        = some (f.file ++ ":".toList ++ itoa f.line)) ∧
    (∀ fresh format a,
      ((Errtx.Newf (f :: rest) fresh format a).asTracedError.bind
          (fun te => te.spans.getLast?)).map Errtx.errorSpan.loc
        = some (f.file ++ ":".toList ++ itoa f.line)) ∧
    (∀ fresh err format a,
      (((Errtx.Wrapf (f :: rest) fresh (some err) format a).bind
          Errtx.GoError.asTracedError).bind (fun te => te.spans.getLast?)).map
          Errtx.errorSpan.loc
        = some (f.file ++ ":".toList ++ itoa f.line)) ∧
    (∀ err, ∃ te : Errtx.tracedError,
      Errtx.Trace (f :: rest) (some err) = .returns (some (.traced te)) ∧
      te.spans.getLast?.map Errtx.errorSpan.loc
        = some (f.file ++ ":".toList ++ itoa f.line)) := by
  have hT : ∀ g h : Frame, Terr.getLocation (g :: h :: f :: rest) 2
      = f.file ++ ":".toList ++ itoa f.line := by
    intro g h
    rw [Terr.getLocation_newTracedError]
    rfl
  have hE : ∀ g : Frame, Errtx.getLocation (g :: f :: rest)
      = f.file ++ ":".toList ++ itoa f.line := by
    intro g
    rw [Errtx.getLocation_eq]
    rfl
  refine ⟨?_, ?_, ?_, ?_, ?_⟩
  · intro fresh format a
    simp [Terr.Newf, Terr.newTracedError, Terr.TraceTree, Terr.tracedError.Location, hT]
  · intro fresh err
    cases err <;>
      simp [Terr.Trace, Terr.newTracedError, Terr.TraceTree, Terr.tracedError.Location, hT]
  · intro fresh format a
    simp [Errtx.Newf, Errtx.GoError.asTracedError, Errtx.tracedError.spans, hE]
  · intro fresh err format a
    cases err <;>
      simp [Errtx.Wrapf, Errtx.GoError.asTracedError, Errtx.tracedError.spans, hE]
  · intro err
    cases err <;>
      exact ⟨_, rfl, by simp [Errtx.tracedError.spans, hE]⟩

/-! ## Properties of package errtx: spans and rendering -/

namespace Errtx

/-- C18: `Wrapf` and `Trace` on a traced error with span list `s` return a
traced error whose span list is `s` followed by exactly one new span, with the
formatted new context, or the empty message for `Trace`, and the call site; on
an untraced non-nil error they return the two spans made of the text of the
error without location and the new span; `Trace` leaves the message as it
was. -/
theorem spans_append_only (stack : List Frame) :
    (∀ (fresh : Nat) (te : tracedError) (format : GoString) (a : List Any),
      ∃ te2 : tracedError,
        Wrapf stack fresh (some (.traced te)) format a = some (.traced te2) ∧
        te2.spans = te.spans ++
          [⟨fmtSprintf GoError.Error GoError.typeName format a, callSite stack⟩]) ∧
    (∀ te : tracedError,
      ∃ te2 : tracedError,
        Trace stack (some (.traced te)) = .returns (some (.traced te2)) ∧
        te2.spans = te.spans ++ [⟨[], callSite stack⟩] ∧
        te2.Error = te.Error) ∧
    (∀ (fresh : Nat) (e : GoError) (format : GoString) (a : List Any),
      e.asTracedError = none →
      ∃ te2 : tracedError,
        Wrapf stack fresh (some e) format a = some (.traced te2) ∧
        te2.spans = [⟨e.Error, []⟩,
          ⟨fmtSprintf GoError.Error GoError.typeName format a, callSite stack⟩]) ∧
    (∀ e : GoError, e.asTracedError = none →
      ∃ te2 : tracedError,
        Trace stack (some e) = .returns (some (.traced te2)) ∧
        te2.spans = [⟨e.Error, []⟩, ⟨[], callSite stack⟩] ∧
        te2.Error = e.Error) := by
  refine ⟨?_, ?_, ?_, ?_⟩
  · intro fresh te format a
    exact ⟨_, rfl, by simp [tracedError.spans, getLocation_eq, fmtErrorf_Error]⟩
  · intro te
    refine ⟨_, rfl, by simp [tracedError.spans, getLocation_eq], ?_⟩
    cases te
    rfl
  · intro fresh e format a h
    cases e with
    | traced child => simp [GoError.asTracedError] at h
    | errorString id s =>
      exact ⟨_, rfl, by simp [tracedError.spans, getLocation_eq, fmtErrorf_Error]⟩
    | wrapError id msg inner =>
      exact ⟨_, rfl, by simp [tracedError.spans, getLocation_eq, fmtErrorf_Error]⟩
    | wrapErrors id msg inner =>
      exact ⟨_, rfl, by simp [tracedError.spans, getLocation_eq, fmtErrorf_Error]⟩
  · intro e h
    cases e with
    | traced child => simp [GoError.asTracedError] at h
    | errorString id s => exact ⟨_, rfl, by simp [tracedError.spans, getLocation_eq], rfl⟩
    | wrapError id msg inner =>
      exact ⟨_, rfl, by simp [tracedError.spans, getLocation_eq], rfl⟩
    | wrapErrors id msg inner =>
      exact ⟨_, rfl, by simp [tracedError.spans, getLocation_eq], rfl⟩

/-- Witness for C18: tracing and wrapping the sentinel `io.EOF` at
`main.go:10`. -/
theorem spans_append_only_witness :
    (∃ te2 : tracedError,
      Wrapf [⟨"main.go".toList, 10⟩] 1 (some ioEOF) "read %d".toList [.int 7]
        = some (.traced te2) ∧
      te2.spans = [⟨"EOF".toList, []⟩, ⟨"read 7".toList, "main.go:10".toList⟩]) ∧
    (∃ te2 : tracedError,
      Trace [⟨"main.go".toList, 10⟩] (some ioEOF) = .returns (some (.traced te2)) ∧
      te2.spans = [⟨"EOF".toList, []⟩, ⟨[], "main.go:10".toList⟩] ∧
      te2.Error = "EOF".toList) := by
  obtain ⟨_, _, hw, ht⟩ := spans_append_only [⟨"main.go".toList, 10⟩]
  constructor
  · obtain ⟨te2, h1, h2⟩ := hw 1 ioEOF "read %d".toList [.int 7] rfl
    refine ⟨te2, h1, ?_⟩
    rw [h2]
    decide
  · obtain ⟨te2, h1, h2, h3⟩ := ht ioEOF rfl
    refine ⟨te2, h1, ?_, ?_⟩
    · rw [h2]
      decide
    · rw [h3]
      rfl

/-- The buffer built by the loop of `traceRepr` is every line of the visited
spans followed by a line feed. -/
theorem traceReprLoop_lines (spans : List errorSpan) :
    traceReprLoop spans [] = (spans.flatMap spanLines).flatMap (fun line => line ++ ['\n']) := by
  induction spans with
  | nil => rfl
  | cons span rest ih =>
    rw [traceReprLoop, traceReprLoop_append, ih]
    by_cases hm : span.msg = [] <;> by_cases hl : span.loc = [] <;>
      simp [spanLines, hm, hl]

/-- Dropping the last line feed of lines that each end with a line feed joins
the lines with line feeds. -/
theorem dropLast_lines : ∀ (lines : List GoString), lines ≠ [] →
    (lines.flatMap (fun line => line ++ ['\n'])).dropLast = joinLines lines
  | [], h => absurd rfl h
  | [line], _ => by simp [joinLines, List.intercalate]
  | line :: next :: rest, _ => by
    have ih := dropLast_lines (next :: rest) (by simp)
    have hne : (next :: rest).flatMap (fun line => line ++ ['\n']) ≠ [] := by simp
    rw [List.flatMap_cons, List.dropLast_append_of_ne_nil _ hne, ih]
    simp [joinLines, List.intercalate]

/-- A span list with at least one line renders as its lines joined by line
feeds. -/
theorem traceRepr_of_lines (err : GoError) (spans : List errorSpan)
    (hlines : traceLines spans ≠ []) :
    traceRepr (.mk err spans) = .returns (joinLines (traceLines spans)) := by
  have hspans : spans.length ≠ 0 := by
    intro h0
    rw [List.length_eq_zero] at h0
    subst h0
    exact hlines rfl
  have hbuf : traceReprLoop spans.reverse [] ≠ [] := by
    rw [traceReprLoop_lines]
    intro h0
    obtain ⟨line, rest, hcons⟩ := List.exists_cons_of_ne_nil hlines
    unfold traceLines at hcons
    rw [hcons] at h0
    simp at h0
  unfold traceRepr
  simp only [tracedError.spans]
  rw [if_neg hspans]
  rw [if_neg (by
    intro h0
    exact hbuf (List.length_eq_zero.mp h0))]
  rw [← List.dropLast_eq_take, traceReprLoop_lines]
  exact congrArg Outcome.returns (dropLast_lines _ hlines)

/-- C19: `traceRepr` returns the empty string for the empty span list; for a
span list in which some span has a non-empty message or location it returns
the lines joined by line feeds, without a line feed at the end, where the
spans are visited from the one added last to the oldest and each span gives its
message as a line when that is not empty, then a tab and its location as a line
when that is not empty. -/
theorem traceRepr_reference (err : GoError) (spans : List errorSpan) :
    traceRepr (.mk err []) = .returns [] ∧
    ((∃ span ∈ spans, span.msg ≠ [] ∨ span.loc ≠ []) →
      traceRepr (.mk err spans) = .returns (joinLines (traceLines spans))) := by
  refine ⟨rfl, ?_⟩
  rintro ⟨span, hmem, hsome⟩
  apply traceRepr_of_lines
  intro h0
  have hall := List.flatMap_eq_nil_iff.mp h0 span (List.mem_reverse.mpr hmem)
  rcases hsome with hm | hl
  · simp [spanLines, hm] at hall
  · simp [spanLines, hl] at hall

/-- Witness for C19: two spans, the older one without location. -/
theorem traceRepr_reference_witness :
    traceRepr (.mk ioEOF [⟨"EOF".toList, []⟩, ⟨"read".toList, "main.go:10".toList⟩])
      = .returns "read\n\tmain.go:10\nEOF".toList := by
  have h := (traceRepr_reference ioEOF
    [⟨"EOF".toList, []⟩, ⟨"read".toList, "main.go:10".toList⟩]).2
    ⟨⟨"EOF".toList, []⟩, by simp, Or.inl (by simp)⟩
  rw [h]
  decide

/-- A span list that ends with a located span renders as a non-empty text. -/
theorem traceRepr_last_located (err : GoError) (init : List errorSpan) (last : errorSpan)
    (hloc : last.loc ≠ []) :
    ∃ text : GoString, traceRepr (.mk err (init ++ [last])) = .returns text ∧ text ≠ [] := by
  have hlines : traceLines (init ++ [last])
      = spanLines last ++ init.reverse.flatMap spanLines := by
    simp [traceLines]
  have hne : traceLines (init ++ [last]) ≠ [] := by
    rw [hlines]
    simp [spanLines, hloc]
  refine ⟨_, traceRepr_of_lines err (init ++ [last]) hne, ?_⟩
  rw [hlines]
  by_cases hm : last.msg = []
  · cases hrest : init.reverse.flatMap spanLines with
    | nil => simp [spanLines, hm, hloc, joinLines, List.intercalate]
    | cons l ls => simp [spanLines, hm, hloc, joinLines, List.intercalate]
  · simp [spanLines, hm, hloc, joinLines, List.intercalate]

/-- C20: every error obtained by a finite sequence of `Newf`, `Wrapf` and
`Trace` calls on non-nil errors is a traced error with a non-empty span list
whose last span has a non-empty location, and `traceRepr` on it does not panic
and returns a non-empty string. -/
theorem Built_spans_located (e : GoError) (h : Built e) :
    ∃ te : tracedError,
      e = .traced te ∧
      te.spans ≠ [] ∧
      (∃ last, te.spans.getLast? = some last ∧ last.loc ≠ []) ∧
      ∃ text : GoString, traceRepr te = .returns text ∧ text ≠ [] := by
  have key : ∀ (err : GoError) (init : List errorSpan) (msg : GoString) (stack : List Frame),
      ∃ te : tracedError,
        GoError.traced (.mk err (init ++ [⟨msg, callSite stack⟩])) = .traced te ∧
        te.spans ≠ [] ∧
        (∃ last, te.spans.getLast? = some last ∧ last.loc ≠ []) ∧
        ∃ text : GoString, traceRepr te = .returns text ∧ text ≠ [] := by
    intro err init msg stack
    refine ⟨_, rfl, by simp [tracedError.spans], ⟨⟨msg, callSite stack⟩, ?_, ?_⟩, ?_⟩
    · simp [tracedError.spans]
    · exact callSite_ne_nil stack
    · exact traceRepr_last_located err init ⟨msg, callSite stack⟩ (callSite_ne_nil stack)
  cases h with
  | newf stack fresh format a =>
    have := key (fmtErrorf fresh format a) [] (fmtErrorf fresh format a).Error stack
    simpa [Newf, getLocation_eq] using this
  | wrapf stack fresh err format a result hprev hcall =>
    obtain ⟨te, h1, h2⟩ := Wrapf_spans stack fresh err format a
    rw [h1] at hcall
    injection hcall with hcall
    subst hcall
    cases te with
    | mk inner spans =>
      simp only [tracedError.spans] at h2
      subst h2
      exact key inner _ _ stack
  | trace stack err result hprev hcall =>
    cases err with
    | traced child =>
      have hc : e = .traced (.mk child.err (child.spans ++ [⟨[], callSite stack⟩])) := by
        simp only [Trace, getLocation_eq] at hcall
        injection hcall with hcall
        injection hcall with hcall
        exact hcall.symm
      subst hc
      exact key _ _ _ stack
    | errorString id s =>
      have hc : e = .traced (.mk (.errorString id s)
          ([⟨s, []⟩] ++ [⟨[], callSite stack⟩])) := by
        simp only [Trace, getLocation_eq] at hcall
        injection hcall with hcall
        injection hcall with hcall
        exact hcall.symm
      subst hc
      exact key _ _ _ stack
    | wrapError id msg inner =>
      have hc : e = .traced (.mk (.wrapError id msg inner)
          ([⟨msg, []⟩] ++ [⟨[], callSite stack⟩])) := by
        simp only [Trace, getLocation_eq] at hcall
        injection hcall with hcall
        injection hcall with hcall
        exact hcall.symm
      subst hc
      exact key _ _ _ stack
    | wrapErrors id msg inner =>
      have hc : e = .traced (.mk (.wrapErrors id msg inner)
          ([⟨msg, []⟩] ++ [⟨[], callSite stack⟩])) := by
        simp only [Trace, getLocation_eq] at hcall
        injection hcall with hcall
        injection hcall with hcall
        exact hcall.symm
      subst hc
      exact key _ _ _ stack

/-- Witness for C20: the error `Wrapf(Trace(io.EOF), "ctx")`. -/
theorem Built_spans_located_witness :
    ∃ te : tracedError,
      Wrapf [⟨"main.go".toList, 20⟩] 1
          (some (.traced (.mk ioEOF [⟨"EOF".toList, []⟩, ⟨[], "main.go:10".toList⟩])))
          "ctx".toList [] = some (.traced te) ∧
      te.spans ≠ [] ∧
      ∃ text : GoString, traceRepr te = .returns text ∧ text ≠ [] := by
  have hb : Built (.traced (.mk ioEOF [⟨"EOF".toList, []⟩, ⟨[], "main.go:10".toList⟩])) :=
    Built.trace [⟨"main.go".toList, 10⟩] ioEOF _ (fun _ hh => by cases hh) rfl
  obtain ⟨te, h1, h2, _, h4⟩ :=
    Built_spans_located _
      (Built.wrapf [⟨"main.go".toList, 20⟩] 1 _ "ctx".toList [] _ (fun _ _ => hb) rfl)
  exact ⟨te, congrArg some h1, h2, h4⟩

end Errtx
